import Mathlib

/-!
Verification development for the SD-TagFilter tag filtering engine.

The Python sources (`sd_tagfilter/patterns.py`, `base.py`, `filters.py`,
`engine.py`) are shallowly embedded: strings are `List Char` / `String`,
Python `int` is `Int`, `float` accumulators are modelled as `ℚ`, fallible
constructors return `Except`.  The parts of the Python standard library the
code relies on (`re.escape`, `str.replace`, `str.strip`, and the `re`
matching engine on the pattern fragment the repository actually produces)
are embedded alongside, faithful to CPython 3.11 semantics on ASCII input.
-/

namespace SDTagFilter

/-- Whitespace set stripped by Python `str.strip()` (ASCII part). -/
def pySpace (c : Char) : Bool :=
  c = ' ' || c = '\t' || c = '\n' || c = '\r' || c = '\x0b' || c = '\x0c'

/-- Python `str.strip()`: drop leading and trailing whitespace. -/
def pyStrip (s : List Char) : List Char :=
  ((s.dropWhile pySpace).reverse.dropWhile pySpace).reverse

/-- Whether `pat` is a prefix of `hay` (helper for substring search). -/
def beginsWith : List Char → List Char → Bool
  | _, [] => true
  | [], _ :: _ => false
  | c :: cs, p :: ps => c = p && beginsWith cs ps

/-- Python's substring operator `pat in hay` over character lists. -/
def containsSub : List Char → List Char → Bool
  | [], pat => pat.isEmpty
  | c :: cs, pat => beginsWith (c :: cs) pat || containsSub cs pat

/-- Characters escaped by CPython 3.11 `re.escape` (the
`_special_chars_map` set).  Note that `_`, ASCII letters and digits are
NOT in this set. -/
def pyRegexSpecial (c : Char) : Bool :=
  c = '(' || c = ')' || c = '[' || c = ']' || c = '\x7b' || c = '\x7d' ||
  c = '?' || c = '*' || c = '+' || c = '-' || c = '|' || c = '^' ||
  c = '$' || c = '\\' || c = '.' || c = '&' || c = '~' || c = '#' ||
  c = ' ' || c = '\t' || c = '\n' || c = '\r' || c = '\x0b' || c = '\x0c'

/-- CPython 3.11 `re.escape`: prefix every special character with a
backslash, leave every other character (including `_` and letters)
untouched. -/
def reEscape : List Char → List Char
  | [] => []
  | c :: cs => if pyRegexSpecial c then '\\' :: c :: reEscape cs else c :: reEscape cs

/-- Python `str.replace(pat, rep)` scan for a non-empty pattern
`p0 :: prest`: leftmost, non-overlapping, replaces all occurrences.  The
`Nat` argument is recursion fuel; every step consumes at least one input
character and one unit of fuel, so the wrapper's initial fuel
`s.length` makes the fuel-exhausted arm unreachable. -/
def listReplaceGo (p0 : Char) (prest rep : List Char) : Nat → List Char → List Char
  | _, [] => []
  | 0, s => s
  | fuel + 1, c :: cs =>
    if beginsWith (c :: cs) (p0 :: prest) then
      rep ++ listReplaceGo p0 prest rep fuel (List.drop prest.length cs)
    else
      c :: listReplaceGo p0 prest rep fuel cs

/-- Python `str.replace(pat, rep)` (replace-all).  For the empty pattern
Python inserts `rep` at every boundary. -/
def listReplace (pat rep s : List Char) : List Char :=
  match pat with
  | [] => rep ++ s.foldr (fun c acc => c :: (rep ++ acc)) []
  | p0 :: prest => listReplaceGo p0 prest rep s.length s

/-- One scan of `re.sub(r'\\(.)\\\?', r'\1?', s)` as used by
`wildcard_to_regex`: the pattern matches a backslash, any character except
newline (captured), a backslash and a question mark; the replacement is the
captured character followed by `?`.  Leftmost, non-overlapping. -/
def subEscQ : List Char → List Char
  | '\\' :: c :: '\\' :: '?' :: rest =>
    if c = '\n' then '\\' :: subEscQ (c :: '\\' :: '?' :: rest)
    else c :: '?' :: subEscQ rest
  | c :: rest => c :: subEscQ rest
  | [] => []

/-- Source `patterns.wildcard_to_regex`: escape the pattern with
`re.escape`, replace the two-character sequences `\*` by `.*` and `\_` by
`.`, rewrite `\x\?` to `x?`, and anchor the result with `^` and `$`. -/
def wildcard_to_regex (pattern : String) : String :=
  let escaped := reEscape pattern.data
  let e1 := listReplace ['\\', '*'] ['.', '*'] escaped
  let e2 := listReplace ['\\', '_'] ['.'] e1
  let e3 := subEscQ e2
  ⟨'^' :: (e3 ++ ['$'])⟩

/-- Source `patterns.parse_replacement_pattern`: requires the delimiter
`||`, splits on its first occurrence, strips both halves. -/
def splitOnDoubleBar : List Char → (List Char × List Char)
  | [] => ([], [])
  | '|' :: '|' :: rest => ([], rest)
  | c :: rest =>
    let p := splitOnDoubleBar rest
    (c :: p.1, p.2)

/-- Source `patterns.parse_replacement_pattern` (raising `ValueError` is
modelled by `Except.error`). -/
def parse_replacement_pattern (pattern : String) : Except String (String × String) :=
  if containsSub pattern.data ['|', '|'] then
    let p := splitOnDoubleBar pattern.data
    .ok (⟨pyStrip p.1⟩, ⟨pyStrip p.2⟩)
  else
    .error ("Invalid replacement pattern: " ++ pattern)

/-! Embedded fragment of the CPython `re` engine.

The patterns the repository produces (outputs of `wildcard_to_regex` and
the literal/capture-free patterns exercised by the claims) fall in the
fragment: sequences of plain characters, escaped characters, `.`, with
optional `*` or `?` quantifier on each atom, a possible leading `^` and a
final `$`.  Greedy backtracking matching, with `.` not matching newline
and `$` accepting the end of the string or a position just before a final
newline, as in CPython without flags. -/

/-- Regex atom of the embedded fragment. -/
inductive RAtom where
  | rchar (c : Char)
  | rdot
deriving DecidableEq

/-- Regex piece: an atom, a starred atom, an optional atom, or the final
dollar anchor. -/
inductive RPiece where
  | one (a : RAtom)
  | many (a : RAtom)
  | opt (a : RAtom)
  | dollar
deriving DecidableEq

/-- Atom match: a literal character matches itself; `.` matches every
character except newline. -/
def atomMatch : RAtom → Char → Bool
  | .rchar c, x => x = c
  | .rdot, x => !(x = '\n')

/-- The `$` anchor without flags: end of string, or just before a final
newline. -/
def dollarOk (s : List Char) : Bool :=
  s = [] || s = ['\n']

/-- Characters that may appear bare (unescaped and unquantified) in the
fragment; everything else must be escaped. -/
def bareOk (c : Char) : Bool :=
  !(c = '\\' || c = '.' || c = '*' || c = '?' || c = '^' || c = '$' ||
    c = '(' || c = ')' || c = '[' || c = ']' || c = '\x7b' || c = '\x7d' ||
    c = '|' || c = '+')

/-- Parse a regex body (no leading `^`) into the fragment; `none` when the
pattern uses features outside the fragment. -/
def parseSeq : List Char → Option (List RPiece)
  | [] => some []
  | ['$'] => some [RPiece.dollar]
  | '\\' :: c :: '*' :: rest => (parseSeq rest).map (fun ps => RPiece.many (RAtom.rchar c) :: ps)
  | '\\' :: c :: '?' :: rest => (parseSeq rest).map (fun ps => RPiece.opt (RAtom.rchar c) :: ps)
  | '\\' :: c :: rest => (parseSeq rest).map (fun ps => RPiece.one (RAtom.rchar c) :: ps)
  | '.' :: '*' :: rest => (parseSeq rest).map (fun ps => RPiece.many RAtom.rdot :: ps)
  | '.' :: '?' :: rest => (parseSeq rest).map (fun ps => RPiece.opt RAtom.rdot :: ps)
  | '.' :: rest => (parseSeq rest).map (fun ps => RPiece.one RAtom.rdot :: ps)
  | c :: '*' :: rest =>
    if bareOk c then (parseSeq rest).map (fun ps => RPiece.many (RAtom.rchar c) :: ps) else none
  | c :: '?' :: rest =>
    if bareOk c then (parseSeq rest).map (fun ps => RPiece.opt (RAtom.rchar c) :: ps) else none
  | c :: rest =>
    if bareOk c then (parseSeq rest).map (fun ps => RPiece.one (RAtom.rchar c) :: ps) else none

/-- Length of the maximal run of characters at the head of `s` matching
atom `a` (the greatest number of repetitions `a*` could consume). -/
def runLen (a : RAtom) : List Char → Nat
  | [] => 0
  | c :: cs => if atomMatch a c then runLen a cs + 1 else 0

/-- Greedy backtracking over the repetition count of a starred atom: try
consuming `i` characters (largest first) and matching the rest of the
pattern (`tail`) on what remains, as CPython's engine does for `a*`. -/
def tryDownFrom (tail : List Char → Option Nat) (s : List Char) : Nat → Option Nat
  | 0 => tail s
  | i + 1 =>
    match tail (List.drop (i + 1) s) with
    | some n => some (i + 1 + n)
    | none => tryDownFrom tail s i

/-- Length of the match CPython's backtracking engine finds for `ps`
anchored at the head of `s` (`none` if there is no match).  Quantifiers
are greedy: the consuming alternative is tried first, so the returned
length is the leftmost-greedy one. -/
def matchLen : List RPiece → List Char → Option Nat
  | [], _ => some 0
  | .dollar :: ps, s => if dollarOk s then matchLen ps s else none
  | .one a :: ps, s =>
    match s with
    | [] => none
    | c :: cs => if atomMatch a c then (matchLen ps cs).map (· + 1) else none
  | .opt a :: ps, s =>
    match s with
    | [] => matchLen ps []
    | c :: cs =>
      if atomMatch a c then
        match matchLen ps cs with
        | some n => some (n + 1)
        | none => matchLen ps (c :: cs)
      else matchLen ps (c :: cs)
  | .many a :: ps, s => tryDownFrom (matchLen ps) s (runLen a s)

/-- Strip a leading `^` (a compiled pattern applied with `.match` is
anchored at the start, so a leading `^` is redundant there). -/
def stripCaret : List Char → List Char
  | '^' :: rest => rest
  | s => s

/-- Truthiness of `re.compile(pattern).match(text)` on the fragment. -/
def regexMatchB (pattern text : List Char) : Bool :=
  match parseSeq (stripCaret pattern) with
  | some ps => (matchLen ps text).isSome
  | none => false

/-- Helper for `.search`: try the body at every start position. -/
def anyTailMatch (ps : List RPiece) : List Char → Bool
  | [] => (matchLen ps []).isSome
  | c :: cs => (matchLen ps (c :: cs)).isSome || anyTailMatch ps cs

/-- Truthiness of `re.compile(pattern).search(text)` on the fragment: a
pattern with a leading `^` only matches at the start, otherwise every
start position is tried. -/
def regexSearchB (pattern text : List Char) : Bool :=
  match pattern with
  | '^' :: body =>
    match parseSeq body with
    | some ps => (matchLen ps text).isSome
    | none => false
  | body =>
    match parseSeq body with
    | some ps => anyTailMatch ps text
    | none => false

/-- Source `patterns.match_with_wildcards` on its default
`case_sensitive=True` path (the only path the filters use): translate the
wildcard pattern and apply the compiled pattern with `.match`. -/
def match_with_wildcards (text pattern : String) : Bool :=
  regexMatchB (wildcard_to_regex pattern).data text.data

/-- One pass of `re.sub` over the text: at each position, if the pattern
matches, emit the replacement and skip the matched span (advancing one
character after an empty match); otherwise emit the character and move
on.  All non-overlapping matches are replaced (CPython `re.sub` default,
no `count` argument).  The `Nat` argument is recursion fuel; the wrapper
passes the text length and every step keeps the fuel at least the length
of the remaining text, so the fuel-exhausted arm is unreachable. -/
def pySubGo (ps : List RPiece) (rep : List Char) : Nat → List Char → List Char
  | _, [] =>
    match matchLen ps [] with
    | some _ => rep
    | none => []
  | 0, s => s
  | fuel + 1, c :: cs =>
    match matchLen ps (c :: cs) with
    | some 0 => rep ++ c :: pySubGo ps rep fuel cs
    | some (n + 1) => rep ++ pySubGo ps rep fuel (List.drop n cs)
    | none => c :: pySubGo ps rep fuel cs

/-- Source `patterns.substitute_with_capture`, modelled on the embedded
fragment: the replacement's `$` characters are turned into backslashes
(the source's `replacement.replace('$', '\\')`) and the compiled pattern's
`.sub` is applied to the whole text.  `none` when the pattern falls
outside the embedded fragment or the rewritten replacement contains group
references (backslashes), which the fragment does not carry captures for. -/
def substitute_with_capture (text pattern replacement : String) : Option String :=
  match parseSeq pattern.data with
  | none => none
  | some ps =>
    let pyRep := replacement.data.map (fun c => if c = '$' then '\\' else c)
    if pyRep.contains '\\' then none
    else some ⟨pySubGo ps pyRep text.data.length text.data⟩

/-- Source `filters.normalize_tag`: `tag.strip().lower().replace(' ', '_')`
(ASCII model of `str.lower`). -/
def normalize_tag (tag : String) : String :=
  ⟨((pyStrip tag.data).map Char.toLower).map (fun c => if c = ' ' then '_' else c)⟩

/-- Source `base.FilterRule` (a NamedTuple; `filter_type` is a `StrEnum`
whose members compare equal to their string values, so it is embedded as
the raw string). -/
structure FilterRule where
  filter_type : String
  pattern : String
  priority : Int
  replacement : Option String
  enabled : Bool
  description : Option String
deriving DecidableEq

/-- Source `base.GroupFilterRule` (a NamedTuple; no validation is
performed on `patterns`). -/
structure GroupFilterRule where
  filter_type : String
  patterns : List String
  priority : Int
  enabled : Bool
  description : Option String
deriving DecidableEq

/-- Source `base.GroupFilterRule.from_list`: builds a group rule with
`filter_type=GROUP` from a pattern list, with no validation. -/
def GroupFilterRule.from_list (patterns : List String) (priority : Int)
    (enabled : Bool) (description : Option String) : GroupFilterRule :=
  { filter_type := "group", patterns := patterns, priority := priority,
    enabled := enabled, description := description }

/-- Source `base.AnyFilterRule = FilterRule | GroupFilterRule`. -/
inductive AnyFilterRule where
  | single (r : FilterRule)
  | group (g : GroupFilterRule)
deriving DecidableEq

/-- The declared kind string of a rule. -/
def AnyFilterRule.kind : AnyFilterRule → String
  | .single r => r.filter_type
  | .group g => g.filter_type

/-- Whether a rule is enabled. -/
def AnyFilterRule.is_enabled : AnyFilterRule → Bool
  | .single r => r.enabled
  | .group g => g.enabled

/-- Source `filters.py` filter instances: one constructor per filter
class.  `ReplaceFilter`/`ReplaceCaptureFilter` store the two halves their
constructors obtain from `parse_replacement_pattern`. -/
inductive AnyFilter where
  | plainKeyword (rule : FilterRule)
  | wildcardF (rule : FilterRule)
  | regexF (rule : FilterRule)
  | groupF (rule : GroupFilterRule)
  | replaceF (rule : FilterRule) (original replacement : String)
  | replaceCaptureF (rule : FilterRule) (original replacement : String)
deriving DecidableEq

/-- `is_enabled` of a filter instance (reads its rule's flag). -/
def AnyFilter.is_enabled : AnyFilter → Bool
  | .plainKeyword r => r.enabled
  | .wildcardF r => r.enabled
  | .regexF r => r.enabled
  | .groupF g => g.enabled
  | .replaceF r _ _ => r.enabled
  | .replaceCaptureF r _ _ => r.enabled

/-- `get_priority` of a filter instance. -/
def AnyFilter.get_priority : AnyFilter → Int
  | .plainKeyword r => r.priority
  | .wildcardF r => r.priority
  | .regexF r => r.priority
  | .groupF g => g.priority
  | .replaceF r _ _ => r.priority
  | .replaceCaptureF r _ _ => r.priority

/-- Whether the instance is a `BaseFilter` (every class except
`GroupFilter`, which derives from `BaseGroupFilter`). -/
def AnyFilter.isBase : AnyFilter → Bool
  | .groupF _ => false
  | _ => true

/-- Whether the instance is `ReplaceFilter` or `ReplaceCaptureFilter`. -/
def AnyFilter.isReplaceKind : AnyFilter → Bool
  | .replaceF _ _ _ => true
  | .replaceCaptureF _ _ _ => true
  | _ => false

/-- Per-class `matches(tag)` for the `BaseFilter` classes (`GroupFilter`'s
`matches` takes a whole list and is defined separately; it is returned as
`false` here only for totality and is never consulted on groups). -/
def AnyFilter.matches_tag : AnyFilter → String → Bool
  | .plainKeyword r, tag => containsSub (normalize_tag tag).data r.pattern.data
  | .wildcardF r, tag => match_with_wildcards tag r.pattern
  | .regexF r, tag => regexSearchB r.pattern.data tag.data
  | .groupF _, _ => false
  | .replaceF _ original _, tag => tag = original
  | .replaceCaptureF _ original _, tag => regexSearchB original.data tag.data

/-- Source `GroupFilter._matches_pattern`: plain-keyword (substring)
match of `pattern` against the normalized tag. -/
def group_matches_pattern (tag pattern : String) : Bool :=
  containsSub (normalize_tag tag).data pattern.data

/-- Source `GroupFilter.matches`: every pattern of the group is found in
at least one tag. -/
def GroupFilter.matches (g : GroupFilterRule) (tags : List String) : Bool :=
  g.patterns.all (fun p => tags.any (fun t => group_matches_pattern t p))

/-- Source `GroupFilter.apply`: identity when disabled or when the group
is not fully present; otherwise drop every tag matching any pattern of
the group (the source's accumulating loop with an inner `break` is the
`filter`/`any` combination). -/
def GroupFilter.apply (g : GroupFilterRule) (tags : List String) : List String :=
  if !g.enabled then tags
  else if !GroupFilter.matches g tags then tags
  else tags.filter (fun t => !(g.patterns.any (fun p => group_matches_pattern t p)))

/-- Per-class `apply(tags)` (source `filters.py`): drop filters remove
matching tags, replace filters map matching tags to their replacement,
the group filter delegates to `GroupFilter.apply`; a disabled filter is
the identity. -/
def AnyFilter.apply (f : AnyFilter) (tags : List String) : List String :=
  match f with
  | .plainKeyword r =>
    if !r.enabled then tags else tags.filter (fun t => !(AnyFilter.plainKeyword r).matches_tag t)
  | .wildcardF r =>
    if !r.enabled then tags else tags.filter (fun t => !(AnyFilter.wildcardF r).matches_tag t)
  | .regexF r =>
    if !r.enabled then tags else tags.filter (fun t => !(AnyFilter.regexF r).matches_tag t)
  | .groupF g => GroupFilter.apply g tags
  | .replaceF r original replacement =>
    if !r.enabled then tags
    else tags.map (fun t => if t = original then replacement else t)
  | .replaceCaptureF r original replacement =>
    if !r.enabled then tags
    else tags.map (fun t =>
      if (AnyFilter.replaceCaptureF r original replacement).matches_tag t then
        (substitute_with_capture t original replacement).getD t
      else t)

/-- The built-in kinds of `FilterFactory._filter_registry`. -/
inductive FilterKind where
  | plainKeyword | wildcardK | regexK | groupK | replaceK | replaceCaptureK
deriving DecidableEq

/-- Source `FilterFactory._filter_registry` lookup (`dict.get` keyed by
the `StrEnum` values, hence by the raw strings). -/
def filterRegistry (t : String) : Option FilterKind :=
  if t = "plain_keyword" then some .plainKeyword
  else if t = "wildcard" then some .wildcardK
  else if t = "regex" then some .regexK
  else if t = "group" then some .groupK
  else if t = "replace" then some .replaceK
  else if t = "replace_capture" then some .replaceCaptureK
  else none

/-- Source `FilterFactory.create_filter`: look the rule's kind up in the
registry and construct the corresponding class; an absent kind raises
`ValueError('Unknown filter type: ...')` (`Except.error`), and a
replacement rule whose pattern lacks `||` propagates the `ValueError`
from `parse_replacement_pattern`.  A kind whose class expects the other
rule shape (e.g. a plain `FilterRule` with kind `group`) constructs in
Python and only fails later at attribute access; no claim exercises such
rules, and the embedding conservatively reports them as errors. -/
def FilterFactory.create_filter : AnyFilterRule → Except String AnyFilter
  | r =>
    match filterRegistry r.kind with
    | none => .error ("Unknown filter type: " ++ r.kind)
    | some k =>
      match k, r with
      | .plainKeyword, .single fr => .ok (.plainKeyword fr)
      | .wildcardK, .single fr => .ok (.wildcardF fr)
      | .regexK, .single fr => .ok (.regexF fr)
      | .groupK, .group g => .ok (.groupF g)
      | .replaceK, .single fr =>
        (parse_replacement_pattern fr.pattern).map (fun p => .replaceF fr p.1 p.2)
      | .replaceCaptureK, .single fr =>
        (parse_replacement_pattern fr.pattern).map (fun p => .replaceCaptureF fr p.1 p.2)
      | _, _ => .error ("Mismatched rule shape for filter type: " ++ r.kind)

/-- Source `TagFilterEngine._create_filters`: for each enabled rule, try
the factory and silently skip rules whose construction raises
`ValueError` (a warning is printed, construction continues). -/
def create_filters (rules : List AnyFilterRule) : List AnyFilter :=
  rules.filterMap (fun r =>
    if r.is_enabled then (FilterFactory.create_filter r).toOption else none)

/-- Stable insert for the descending priority sort: `f` is placed before
the first filter of strictly smaller priority, after all filters of
greater-or-equal priority. -/
def insertByPriorityDesc (f : AnyFilter) : List AnyFilter → List AnyFilter
  | [] => [f]
  | g :: gs =>
    if g.get_priority < f.get_priority then f :: g :: gs
    else g :: insertByPriorityDesc f gs

/-- Source `TagFilterEngine._sort_filters_by_priority`: Python's stable
`list.sort(key=priority, reverse=True)`, i.e. descending by priority with
ties keeping their original relative order. -/
def sort_filters_by_priority : List AnyFilter → List AnyFilter
  | [] => []
  | f :: fs => insertByPriorityDesc f (sort_filters_by_priority fs)

/-- Source `engine.TagFilterEngine` state: the supplied rules and the
constructed, priority-sorted filter list. -/
structure TagFilterEngine where
  rules : List AnyFilterRule
  filters : List AnyFilter
deriving DecidableEq

/-- Source `TagFilterEngine.__init__`. -/
def TagFilterEngine.create (rules : List AnyFilterRule) : TagFilterEngine :=
  { rules := rules, filters := sort_filters_by_priority (create_filters rules) }

/-- The sequential application loop of `TagFilterEngine.filter_tags`:
apply each enabled filter to the working list, stopping early once the
working list becomes empty. -/
def applyLoop : List AnyFilter → List String → List String
  | [], cur => cur
  | f :: fs, cur =>
    if f.is_enabled then
      let nxt := f.apply cur
      if nxt = [] then nxt else applyLoop fs nxt
    else applyLoop fs cur

/-- Source `TagFilterEngine.filter_tags`: returns the input when it is
empty, otherwise runs the filters over a copy of it. -/
def TagFilterEngine.filter_tags (e : TagFilterEngine) (tags : List String) : List String :=
  if tags = [] then tags else applyLoop e.filters tags

/-- The loop of `MemoryEfficientFilterEngine._should_keep_tag`: group
filters are skipped; for a `BaseFilter` that matches the tag, `False` is
returned only when the filter is a replace-kind filter, otherwise the
loop just continues; `True` is returned when the loop ends. -/
def shouldKeepLoop (tag : String) : List AnyFilter → Bool
  | [] => true
  | f :: fs =>
    if !f.is_enabled then shouldKeepLoop tag fs
    else if f.isBase then
      if f.matches_tag tag then
        if f.isReplaceKind then false
        else shouldKeepLoop tag fs
      else shouldKeepLoop tag fs
    else shouldKeepLoop tag fs

/-- Source `MemoryEfficientFilterEngine._should_keep_tag` (the per-tag
decision used by its `filter_tags_stream`). -/
def should_keep_tag (e : TagFilterEngine) (tag : String) : Bool :=
  shouldKeepLoop tag e.filters

/-- Source `MemoryEfficientFilterEngine.filter_tags_stream` on a fully
materialised input: yield exactly the tags `_should_keep_tag` keeps. -/
def memory_efficient_stream (e : TagFilterEngine) (tags : List String) : List String :=
  tags.filter (fun t => should_keep_tag e t)

/-- Source `engine.Stats`: counters are Python `int` (embedded as `Int`),
times and rates are Python `float` (embedded as `ℚ`). -/
structure Stats where
  total_processed : Int
  total_filtered : Int
  processing_time : ℚ
  filter_rate : ℚ
  avg_processing_time : ℚ
deriving DecidableEq

/-- Zero-initialised statistics (`Stats()` defaults). -/
def Stats.init : Stats :=
  { total_processed := 0, total_filtered := 0, processing_time := 0,
    filter_rate := 0, avg_processing_time := 0 }

/-- Source `OptimizedTagFilterEngine.filter_tags`: runs the base
`filter_tags` and accumulates statistics; the elapsed wall-clock time of
the call is an environment input `dt`. -/
def OptimizedTagFilterEngine.filter_tags (e : TagFilterEngine) (s : Stats)
    (tags : List String) (dt : ℚ) : List String × Stats :=
  let result := TagFilterEngine.filter_tags e tags
  (result,
    { s with
      total_processed := s.total_processed + tags.length,
      total_filtered := s.total_filtered + ((tags.length : Int) - result.length),
      processing_time := s.processing_time + dt })

/-- Source `OptimizedTagFilterEngine.get_performance_stats`: on a copy of
the stored statistics, derive `filter_rate` and `avg_processing_time` by
division when `total_processed > 0` and set them to `0.0` otherwise. -/
def OptimizedTagFilterEngine.get_performance_stats (s : Stats) : Stats :=
  if s.total_processed > 0 then
    { s with
      filter_rate := (s.total_filtered : ℚ) / (s.total_processed : ℚ),
      avg_processing_time := s.processing_time / (s.total_processed : ℚ) }
  else
    { s with filter_rate := 0, avg_processing_time := 0 }

/-! Reference-level model for the frame property of `filter_tags`.

Python lists are mutable heap objects; to state that `filter_tags` never
mutates its caller's list, engines are re-run over an explicit heap of
list cells.  Each translated operation either returns an existing
reference unchanged (the source's early `return tags`) or allocates a
fresh cell (the source's list comprehensions, accumulating `result`
lists, and `tags.copy()`); no operation writes into an existing cell,
mirroring the absence of in-place mutation (`append` to the argument,
slice assignment, `sort` on the argument, ...) in the source. -/

/-- A heap of Python list objects, addressed by allocation index. -/
abbrev Heap := List (List String)

/-- Read the contents of cell `r`. -/
def Heap.read (h : Heap) (r : Nat) : List String := h.getD r []

/-- Allocate a fresh cell holding `v`. -/
def Heap.alloc (h : Heap) (v : List String) : Heap × Nat := (h ++ [v], h.length)

/-- Heap-level `apply` of one filter, mirroring the source line by line:
the early `return tags` branches return the caller's reference, every
other branch builds a new list. -/
def applyRef (f : AnyFilter) (h : Heap) (r : Nat) : Heap × Nat :=
  if !f.is_enabled then (h, r)
  else
    match f with
    | .groupF g =>
      if !GroupFilter.matches g (h.read r) then (h, r)
      else h.alloc (AnyFilter.apply (.groupF g) (h.read r))
    | f => h.alloc (f.apply (h.read r))

/-- Heap-level filter loop of `filter_tags`: `current_tags` is a local
variable rebinding to each filter's output reference. -/
def applyLoopRef : List AnyFilter → Heap → Nat → Heap × Nat
  | [], h, cur => (h, cur)
  | f :: fs, h, cur =>
    if f.is_enabled then
      let p := applyRef f h cur
      if p.1.read p.2 = [] then p else applyLoopRef fs p.1 p.2
    else applyLoopRef fs h cur

/-- Heap-level `TagFilterEngine.filter_tags`: an empty input is returned
as the same reference; otherwise the input is copied (`tags.copy()`) into
a fresh cell and the filters run on the copy. -/
def TagFilterEngine.filter_tags_ref (e : TagFilterEngine) (h : Heap) (r : Nat) : Heap × Nat :=
  if h.read r = [] then (h, r)
  else
    let p := h.alloc (h.read r)
    applyLoopRef e.filters p.1 p.2

/-- Rules of the three drop-only kinds (plain keyword, wildcard, regex),
the rule sets claim C8 quantifies over. -/
def isDropOnlyRule : AnyFilterRule → Bool
  | .single fr =>
    fr.filter_type = "plain_keyword" || fr.filter_type = "wildcard" || fr.filter_type = "regex"
  | .group _ => false

/-- Filter instances of the three drop-only classes. -/
def isDropOnlyFilter : AnyFilter → Bool
  | .plainKeyword _ => true
  | .wildcardF _ => true
  | .regexF _ => true
  | _ => false

/-- The predicate a tag must satisfy to survive a pipeline of drop-only
filters: no enabled filter in the list matches it. -/
def keepAll (fs : List AnyFilter) (t : String) : Bool :=
  fs.all (fun f => !(f.is_enabled && f.matches_tag t))

/-! Theorems for the claims. -/

/-- C1.  The code contradicts the claim (and its own in-line comment):
in `_should_keep_tag` a tag matched by an enabled non-group, non-replace
filter is KEPT (the loop merely continues), while a tag matched by a
replace-kind filter is DROPPED (`return False` sits under the replace
check, directly below the comment saying replace matches must not remove).
Here: a `plain_keyword "bad"` filter matches `"bad_tag"` (and the standard
engine drops it), yet the memory-efficient decision keeps it; a
`replace "a||b"` filter makes the memory-efficient decision drop `"a"`
although the claim says replacement matches are never drop signals. -/
theorem c1_should_keep_tag_inverted :
    should_keep_tag
      (TagFilterEngine.create [.single ⟨"plain_keyword", "bad", 0, none, true, none⟩])
      "bad_tag" = true
  ∧ AnyFilter.matches_tag (.plainKeyword ⟨"plain_keyword", "bad", 0, none, true, none⟩)
      "bad_tag" = true
  ∧ TagFilterEngine.filter_tags
      (TagFilterEngine.create [.single ⟨"plain_keyword", "bad", 0, none, true, none⟩])
      ["bad_tag"] = []
  ∧ should_keep_tag
      (TagFilterEngine.create [.single ⟨"replace", "a||b", 0, none, true, none⟩])
      "a" = false
  ∧ memory_efficient_stream
      (TagFilterEngine.create [.single ⟨"plain_keyword", "bad", 0, none, true, none⟩])
      ["bad_tag"] = ["bad_tag"] := by
  decide

/-- C2.  Evaluation of `wildcard_to_regex` at the claim's failing inputs:
since CPython 3.7 `re.escape` escapes neither `_` nor letters, the
`escaped.replace('\_', '.')` and `re.sub(r'\\(.)\\\?', ...)` steps never
fire on them, so `_` stays a literal underscore and `x?` (x a letter)
stays a literal two-character sequence, contradicting the function's own
docstring (`_` = any one character, `x?` = optional x, doctest
`wildcard_to_regex("red_?") == 'red_.?'`) and the claim. -/
theorem c2_wildcard_translation_evaluation :
    wildcard_to_regex "a_c" = "^a_c$"
  ∧ match_with_wildcards "abc" "a_c" = false
  ∧ match_with_wildcards "a_c" "a_c" = true
  ∧ wildcard_to_regex "red_?" = "^red_\\?$"
  ∧ match_with_wildcards "ab" "ab?" = false
  ∧ match_with_wildcards "ab?" "ab?" = true
  ∧ wildcard_to_regex "*_hair" = "^.*_hair$" := by
  decide

/-- C6 counterexample.  `GroupFilterRule.from_list []` does NOT fail: it
constructs a rule with an empty pattern tuple (the NamedTuple performs no
validation), and `FilterFactory.create_filter` accepts the resulting
rule; nothing rejects the empty group before apply time. -/
theorem c6_empty_group_accepted :
    (GroupFilterRule.from_list [] 0 true none).patterns = []
  ∧ (FilterFactory.create_filter
      (.group (GroupFilterRule.from_list [] 0 true none))).isOk = true := by
  decide

/-- C6 amended.  An empty group rule is accepted at construction time and
is inert at apply time: with zero patterns the presence check is
vacuously true and no tag matches any pattern, so `apply` returns the
list unchanged. -/
theorem c6_empty_group_apply_identity (tags : List String) :
    GroupFilter.matches (GroupFilterRule.from_list [] 0 true none) tags = true
  ∧ GroupFilter.apply (GroupFilterRule.from_list [] 0 true none) tags = tags := by
  simp [GroupFilter.matches, GroupFilter.apply, GroupFilterRule.from_list]

/-- C3 counterexample.  `substitute_with_capture` is a global
replace-all, not a first-match-only substitution: on `"aa"`, which
contains two disjoint matches of the pattern `"a"`, the second occurrence
is also replaced, so the result is `"bb"`, not the `"ba"` the claim
predicts. -/
theorem c3_substitute_first_only_counterexample :
    substitute_with_capture "aa" "a" "b" = some "bb"
  ∧ substitute_with_capture "aa" "a" "b" ≠ some "ba" := by
  decide

/-- Auxiliary global-replacement computation for the single-character
pattern `a` and replacement `b`: the scan replaces every occurrence. -/
theorem pySubGo_char_global (s : List Char) :
    pySubGo [RPiece.one (RAtom.rchar 'a')] ['b'] s.length s
      = s.map (fun x => if x = 'a' then 'b' else x) := by
  induction s with
  | nil => simp [pySubGo, matchLen]
  | cons c cs ih =>
    by_cases hc : c = 'a'
    · subst hc
      simp [pySubGo, matchLen, atomMatch, ih]
    · simp [pySubGo, matchLen, atomMatch, hc, ih]

/-- C3 amended.  `substitute_with_capture` substitutes every
non-overlapping match of the pattern (CPython `re.sub` with no `count`
argument), not only the first: for every input text, substituting pattern
`"a"` by `"b"` replaces all occurrences of `a`. -/
theorem c3_substitute_replaces_all_matches (text : String) :
    substitute_with_capture text "a" "b"
      = some ⟨text.data.map (fun x => if x = 'a' then 'b' else x)⟩ := by
  show some (⟨pySubGo [RPiece.one (RAtom.rchar 'a')] ['b']
    text.data.length text.data⟩ : String) = _
  rw [pySubGo_char_global]

/-- C4 counterexample.  The default case-sensitive path of
`match_with_wildcards` is NOT a prefix match: `"abcd"` starts with
`"abc"`, a string the translated pattern fully matches, yet the result is
`false`, because the translated pattern carries a final `$` anchor and
`.match` therefore accepts no proper extension (other than a single
trailing newline, per the `$` semantics). -/
theorem c4_match_not_a_prefix_match :
    match_with_wildcards "abcd" "abc" = false
  ∧ match_with_wildcards "abc" "abc" = true := by
  decide

/-- Characterization of the translated pattern `^abc$` under the match
semantics: it accepts exactly `abc` and `abc` followed by one final
newline. -/
theorem matchLen_abc_dollar (l : List Char) :
    (matchLen [RPiece.one (RAtom.rchar 'a'), RPiece.one (RAtom.rchar 'b'),
      RPiece.one (RAtom.rchar 'c'), RPiece.dollar] l).isSome = true
  ↔ (l = ['a', 'b', 'c'] ∨ l = ['a', 'b', 'c', '\n']) := by
  rcases l with _ | ⟨c1, _ | ⟨c2, _ | ⟨c3, _ | ⟨c4, l⟩⟩⟩⟩ <;>
    simp [matchLen, atomMatch, dollarOk] <;> split_ifs <;> simp_all

/-- C4 amended.  On its default case-sensitive path,
`match_with_wildcards` tests the translated pattern (anchored with `^`
and `$`) against the WHOLE text: for every text, matching the wildcard
pattern `"abc"` succeeds exactly on the full string `"abc"` — or on
`"abc"` followed by a single final newline, which CPython's unflagged `$`
also accepts — and never on any other extension of a matching prefix. -/
theorem c4_match_is_full_string_match (text : String) :
    match_with_wildcards text "abc" = true
  ↔ (text = "abc" ∨ text = "abc\n") := by
  have h := matchLen_abc_dollar text.data
  show (matchLen [RPiece.one (RAtom.rchar 'a'), RPiece.one (RAtom.rchar 'b'),
    RPiece.one (RAtom.rchar 'c'), RPiece.dollar] text.data).isSome = true ↔ _
  rw [h]
  simp only [String.ext_iff]

/-- C5.  `GroupFilter.apply` is all-or-nothing for every enabled group
rule: when every pattern of the group is found as a substring of the
normalized form of at least one tag, the result is the input with every
tag whose normalized form contains any of the group's patterns removed;
when at least one pattern has no such tag, the input is returned
unchanged. -/
theorem c5_group_filter_all_or_nothing (g : GroupFilterRule) (tags : List String)
    (hen : g.enabled = true) :
    ((∀ p ∈ g.patterns, ∃ t ∈ tags, containsSub (normalize_tag t).data p.data = true) →
      GroupFilter.apply g tags
        = tags.filter (fun t => !(g.patterns.any (fun p => group_matches_pattern t p)))) ∧
    ((¬ ∀ p ∈ g.patterns, ∃ t ∈ tags, containsSub (normalize_tag t).data p.data = true) →
      GroupFilter.apply g tags = tags) := by
  have hm : GroupFilter.matches g tags = true
      ↔ (∀ p ∈ g.patterns, ∃ t ∈ tags, containsSub (normalize_tag t).data p.data = true) := by
    simp [GroupFilter.matches, List.all_eq_true, List.any_eq_true, group_matches_pattern]
  constructor
  · intro hp
    simp [GroupFilter.apply, hen, hm.mpr hp]
  · intro hp
    have hmf : GroupFilter.matches g tags = false := by
      rcases Bool.eq_false_or_eq_true (GroupFilter.matches g tags) with h | h
      · exact absurd (hm.mp h) hp
      · exact h
    simp [GroupFilter.apply, hen, hmf]

/-- C5 witness: the claim's two boundary examples.  Over
`["steam","hot","other"]` the pattern `"blush"` is missing, so the list
is unchanged; over `["steam","sweat","blush","other"]` all patterns are
present and exactly the three matching tags are removed. -/
theorem c5_group_filter_all_or_nothing_witness :
    GroupFilter.apply (GroupFilterRule.from_list ["steam", "sweat", "blush"] 0 true none)
      ["steam", "hot", "other"] = ["steam", "hot", "other"]
  ∧ GroupFilter.apply (GroupFilterRule.from_list ["steam", "sweat", "blush"] 0 true none)
      ["steam", "sweat", "blush", "other"] = ["other"] := by
  constructor
  · exact (c5_group_filter_all_or_nothing _ _ rfl).2 (by decide)
  · have h := (c5_group_filter_all_or_nothing
      (GroupFilterRule.from_list ["steam", "sweat", "blush"] 0 true none)
      ["steam", "sweat", "blush", "other"] rfl).1 (by decide)
    rw [h]
    decide

/-- Skipping every unknown-kind rule changes nothing in the constructed
filter list: `_create_filters` yields the same filters whether or not the
unknown-kind rules are removed from the input beforehand. -/
theorem create_filters_known_kinds (rules : List AnyFilterRule) :
    create_filters (rules.filter (fun q => (filterRegistry q.kind).isSome))
      = create_filters rules := by
  induction rules with
  | nil => rfl
  | cons q qs ih =>
    by_cases hq : (filterRegistry q.kind).isSome = true
    · simp [List.filter_cons, hq, create_filters, List.filterMap_cons] at ih ⊢
      rw [ih]
    · have hnone : filterRegistry q.kind = none := by
        rcases h : filterRegistry q.kind with _ | k
        · rfl
        · rw [h] at hq; simp at hq
      have herr : (FilterFactory.create_filter q).toOption = none := by
        simp [FilterFactory.create_filter, hnone, Except.toOption]
      simp [List.filter_cons, hq, create_filters, List.filterMap_cons, herr] at ih ⊢
      rw [ih]

/-- C7.  For every rule sequence containing a rule whose kind is absent
from the factory registry, `create_filter` fails with the
unknown-filter-type error for that rule, and engine construction handles
this per rule: it never aborts, and the filter list it builds is exactly
the one built from the remaining known-kind rules. -/
theorem c7_unknown_kind_error_and_skip (rules : List AnyFilterRule) (r : AnyFilterRule)
    (hmem : r ∈ rules) (hunk : filterRegistry r.kind = none) :
    (∃ msg, FilterFactory.create_filter r = .error msg) ∧
    (TagFilterEngine.create rules).filters
      = (TagFilterEngine.create
          (rules.filter (fun q => (filterRegistry q.kind).isSome))).filters := by
  constructor
  · exact ⟨"Unknown filter type: " ++ r.kind, by simp [FilterFactory.create_filter, hunk]⟩
  · simp [TagFilterEngine.create, create_filters_known_kinds]

/-- C7 witness: a two-rule list with one unknown kind `"bogus"` and one
valid plain-keyword rule. -/
theorem c7_unknown_kind_error_and_skip_witness :
    (∃ msg, FilterFactory.create_filter
      (.single ⟨"bogus", "x", 0, none, true, none⟩) = .error msg) ∧
    (TagFilterEngine.create [.single ⟨"bogus", "x", 0, none, true, none⟩,
        .single ⟨"plain_keyword", "bad", 0, none, true, none⟩]).filters
      = (TagFilterEngine.create ([.single ⟨"bogus", "x", 0, none, true, none⟩,
          .single ⟨"plain_keyword", "bad", 0, none, true, none⟩].filter
            (fun q => (filterRegistry q.kind).isSome))).filters :=
  c7_unknown_kind_error_and_skip _ _ (by decide) (by decide)

/-- Drop-only filters apply as a pure per-element filter: keep exactly the tags the (enabled) filter does not match. -/
theorem apply_drop_only (f : AnyFilter) (hf : isDropOnlyFilter f = true) (tags : List String) :
    f.apply tags = tags.filter (fun t => !(f.is_enabled && f.matches_tag t)) := by
  cases f with
  | plainKeyword r =>
    cases hr : r.enabled <;>
      simp [AnyFilter.apply, AnyFilter.is_enabled, hr, List.filter_true]
  | wildcardF r =>
    cases hr : r.enabled <;>
      simp [AnyFilter.apply, AnyFilter.is_enabled, hr, List.filter_true]
  | regexF r =>
    cases hr : r.enabled <;>
      simp [AnyFilter.apply, AnyFilter.is_enabled, hr, List.filter_true]
  | groupF g => simp [isDropOnlyFilter] at hf
  | replaceF r o p => simp [isDropOnlyFilter] at hf
  | replaceCaptureF r o p => simp [isDropOnlyFilter] at hf

/-- A pipeline of drop-only filters equals one filter pass with the conjunction of the negated per-filter match predicates; the early exit on an empty working list does not change the result. -/
theorem applyLoop_drop_only (fs : List AnyFilter)
    (hfs : ∀ f ∈ fs, isDropOnlyFilter f = true) (tags : List String) :
    applyLoop fs tags = tags.filter (keepAll fs) := by
  induction fs generalizing tags with
  | nil =>
    rw [show keepAll [] = fun _ => true from rfl, List.filter_true]
    rfl
  | cons f fs ih =>
    have hf := hfs f (List.mem_cons_self f fs)
    have hfs2 : ∀ g ∈ fs, isDropOnlyFilter g = true := fun g hg => hfs g (List.mem_cons_of_mem f hg)
    have hkeep : ∀ t, keepAll (f :: fs) t = ((!(f.is_enabled && f.matches_tag t)) && keepAll fs t) := by
      intro t
      simp [keepAll]
    cases he : f.is_enabled with
    | false =>
      have : applyLoop (f :: fs) tags = applyLoop fs tags := by
        simp [applyLoop, he]
      rw [this, ih hfs2]
      refine (List.filter_congr ?_).symm
      intro t _
      simp [hkeep, he]
    | true =>
      have happ : f.apply tags = tags.filter (fun t => !(f.is_enabled && f.matches_tag t)) :=
        apply_drop_only f hf tags
      by_cases hn : f.apply tags = []
      · have hstep : applyLoop (f :: fs) tags = [] := by
          simp [applyLoop, he, hn]
        rw [hstep]
        symm
        rw [List.filter_eq_nil_iff]
        intro t ht hkt
        have hmem : t ∈ f.apply tags := by
          rw [happ, List.mem_filter]
          refine ⟨ht, ?_⟩
          rw [hkeep t, Bool.and_eq_true] at hkt
          exact hkt.1
        rw [hn] at hmem
        exact absurd hmem (List.not_mem_nil t)
      · have hstep : applyLoop (f :: fs) tags = applyLoop fs (f.apply tags) := by
          simp [applyLoop, he, hn]
        rw [hstep, ih hfs2, happ, List.filter_filter]
        refine List.filter_congr ?_
        intro t _
        rw [hkeep t]
        exact Bool.and_comm _ _

/-- Membership is preserved by the stable priority insert. -/
theorem mem_insertByPriorityDesc {f g : AnyFilter} {l : List AnyFilter} :
    f ∈ insertByPriorityDesc g l ↔ f = g ∨ f ∈ l := by
  induction l with
  | nil => simp [insertByPriorityDesc]
  | cons x xs ih =>
    simp only [insertByPriorityDesc]
    split_ifs
    · simp
    · simp [ih]
      tauto

/-- Membership is preserved by the priority sort. -/
theorem mem_sort_filters {f : AnyFilter} {l : List AnyFilter} :
    f ∈ sort_filters_by_priority l ↔ f ∈ l := by
  induction l with
  | nil => simp [sort_filters_by_priority]
  | cons x xs ih => simp [sort_filters_by_priority, mem_insertByPriorityDesc, ih]

/-- The factory maps drop-only rules to drop-only filter instances. -/
theorem create_filter_drop_only {r : AnyFilterRule} {f : AnyFilter}
    (h : isDropOnlyRule r = true) (hok : FilterFactory.create_filter r = .ok f) :
    isDropOnlyFilter f = true := by
  cases r with
  | group g => simp [isDropOnlyRule] at h
  | single fr =>
    simp only [isDropOnlyRule, Bool.or_eq_true, decide_eq_true_eq] at h
    rcases h with (h | h) | h <;>
    · simp [FilterFactory.create_filter, AnyFilterRule.kind, filterRegistry, h] at hok
      subst hok
      rfl

/-- An engine built only from drop-only rules holds only drop-only filters. -/
theorem engine_filters_drop_only (rules : List AnyFilterRule)
    (h : ∀ r ∈ rules, isDropOnlyRule r = true) :
    ∀ f ∈ (TagFilterEngine.create rules).filters, isDropOnlyFilter f = true := by
  intro f hf
  simp only [TagFilterEngine.create] at hf
  rw [mem_sort_filters] at hf
  rw [create_filters, List.mem_filterMap] at hf
  obtain ⟨r, hr, heq⟩ := hf
  by_cases hen : r.is_enabled = true
  · rw [if_pos hen] at heq
    have hok : FilterFactory.create_filter r = .ok f := by
      cases hx : FilterFactory.create_filter r <;> rw [hx] at heq <;>
        simp [Except.toOption] at heq
      rw [heq]
    exact create_filter_drop_only (h r hr) hok
  · rw [if_neg hen] at heq
    exact absurd heq (Option.noConfusion)

/-- C8.  For every engine built only from PLAIN_KEYWORD, WILDCARD and REGEX rules and every tag list, `filter_tags` is idempotent: filtering the output again with the same engine returns it unchanged. -/
theorem c8_filter_tags_idempotent (rules : List AnyFilterRule)
    (h : ∀ r ∈ rules, isDropOnlyRule r = true) (tags : List String) :
    (TagFilterEngine.create rules).filter_tags
        ((TagFilterEngine.create rules).filter_tags tags)
      = (TagFilterEngine.create rules).filter_tags tags := by
  have hfs := engine_filters_drop_only rules h
  set e := TagFilterEngine.create rules with he
  by_cases h0 : tags = []
  · subst h0
    simp [TagFilterEngine.filter_tags]
  · have h1 : e.filter_tags tags = tags.filter (keepAll e.filters) := by
      rw [TagFilterEngine.filter_tags, if_neg h0, applyLoop_drop_only _ hfs]
    by_cases h2 : e.filter_tags tags = []
    · rw [h2]
      simp [TagFilterEngine.filter_tags]
    · calc e.filter_tags (e.filter_tags tags)
          = applyLoop e.filters (tags.filter (keepAll e.filters)) := by
            rw [TagFilterEngine.filter_tags, if_neg h2, h1]
        _ = (tags.filter (keepAll e.filters)).filter (keepAll e.filters) :=
            applyLoop_drop_only _ hfs _
        _ = tags.filter (fun t => keepAll e.filters t && keepAll e.filters t) := by
            rw [List.filter_filter]
        _ = tags.filter (keepAll e.filters) := by
            refine List.filter_congr ?_
            intro t _
            exact Bool.and_self _
        _ = e.filter_tags tags := h1.symm

/-- C8 witness: a concrete plain-keyword engine and tag list. -/
theorem c8_filter_tags_idempotent_witness :
    (TagFilterEngine.create [.single ⟨"plain_keyword", "bad", 0, none, true, none⟩]).filter_tags
        ((TagFilterEngine.create [.single ⟨"plain_keyword", "bad", 0, none, true, none⟩]).filter_tags
          ["bad_x", "ok"])
      = (TagFilterEngine.create [.single ⟨"plain_keyword", "bad", 0, none, true, none⟩]).filter_tags
          ["bad_x", "ok"] :=
  c8_filter_tags_idempotent _ (by decide) _

/-- C9.  Optimized-engine statistics: `total_processed` and
`total_filtered` start at zero and each `filter_tags` call adds the input
length and the number of removed tags respectively (additive
accumulation across repeated calls); `get_performance_stats` reports
`filter_rate = total_filtered / total_processed` and
`avg_processing_time = processing_time / total_processed` when
`total_processed` is positive, and reports both as `0` when
`total_processed` is `0`. -/
theorem c9_stats_accumulation_and_rates (e : TagFilterEngine) (s : Stats) (tags : List String) (dt : ℚ) :
    (Stats.init.total_processed = 0 ∧ Stats.init.total_filtered = 0)
  ∧ (OptimizedTagFilterEngine.filter_tags e s tags dt).2.total_processed
      = s.total_processed + tags.length
  ∧ (OptimizedTagFilterEngine.filter_tags e s tags dt).2.total_filtered
      = s.total_filtered + ((tags.length : Int) - (TagFilterEngine.filter_tags e tags).length)
  ∧ (0 < s.total_processed →
      (OptimizedTagFilterEngine.get_performance_stats s).filter_rate
        = (s.total_filtered : ℚ) / (s.total_processed : ℚ)
      ∧ (OptimizedTagFilterEngine.get_performance_stats s).avg_processing_time
        = s.processing_time / (s.total_processed : ℚ))
  ∧ (s.total_processed = 0 →
      (OptimizedTagFilterEngine.get_performance_stats s).filter_rate = 0
      ∧ (OptimizedTagFilterEngine.get_performance_stats s).avg_processing_time = 0) := by
  refine ⟨⟨rfl, rfl⟩, rfl, rfl, ?_, ?_⟩
  · intro hn
    simp [OptimizedTagFilterEngine.get_performance_stats, hn]
  · intro hn
    simp [OptimizedTagFilterEngine.get_performance_stats, hn]

/-- C9 witness: concrete instantiations discharging both implications —
a statistics record with 2 processed and 1 filtered reports rate `1/2`,
the zero-initialised record reports `0` rates, and one call on a two-tag
list adds 2 to `total_processed`. -/
theorem c9_stats_accumulation_and_rates_witness :
    ((OptimizedTagFilterEngine.get_performance_stats ⟨2, 1, 0, 0, 0⟩).filter_rate = (1 : ℚ) / 2)
  ∧ ((OptimizedTagFilterEngine.get_performance_stats Stats.init).filter_rate = 0
      ∧ (OptimizedTagFilterEngine.get_performance_stats Stats.init).avg_processing_time = 0)
  ∧ (OptimizedTagFilterEngine.filter_tags
        (TagFilterEngine.create [.single ⟨"plain_keyword", "bad", 0, none, true, none⟩])
        Stats.init ["bad_x", "ok"] 0).2.total_processed = 2 := by
  refine ⟨?_, ?_, ?_⟩
  · have h := (c9_stats_accumulation_and_rates (TagFilterEngine.create []) ⟨2, 1, 0, 0, 0⟩ [] 0).2.2.2.1 (by norm_num)
    rw [h.1]
    norm_num
  · exact (c9_stats_accumulation_and_rates (TagFilterEngine.create []) Stats.init [] 0).2.2.2.2 rfl
  · have h := (c9_stats_accumulation_and_rates (TagFilterEngine.create [.single ⟨"plain_keyword", "bad", 0, none, true, none⟩])
      Stats.init ["bad_x", "ok"] 0).2.1
    rw [h]
    rfl

/-- Reading below the old heap boundary is unaffected by allocations. -/
theorem Heap.read_append (h ext : Heap) (i : Nat) (hi : i < h.length) :
    Heap.read (h ++ ext) i = Heap.read h i :=
  List.getD_append h ext [] i hi

/-- Reading a freshly allocated cell yields the stored value. -/
theorem Heap.read_alloc (h : Heap) (v : List String) :
    Heap.read (h ++ [v]) h.length = v := by
  induction h with
  | nil => rfl
  | cons x xs ih => simpa [Heap.read, List.getD] using ih

/-- A disabled filter applies as the identity (every class returns its argument unchanged when `enabled` is false). -/
theorem apply_disabled (f : AnyFilter) (he : f.is_enabled = false) (tags : List String) :
    f.apply tags = tags := by
  cases f <;>
    simp_all [AnyFilter.apply, AnyFilter.is_enabled, GroupFilter.apply]

/-- Heap-level apply only extends the heap, and the returned reference holds exactly the pure `apply` of the input contents. -/
theorem applyRef_spec (f : AnyFilter) (h : Heap) (r : Nat) :
    ∃ ext, (applyRef f h r).1 = h ++ ext
      ∧ (applyRef f h r).1.read ((applyRef f h r).2) = f.apply (h.read r) := by
  by_cases he : f.is_enabled = true
  · cases f with
    | groupF g =>
      by_cases hm : GroupFilter.matches g (Heap.read h r) = true
      · refine ⟨[AnyFilter.apply (.groupF g) (h.read r)], ?_, ?_⟩ <;>
          simp [applyRef, he, hm, Heap.alloc, Heap.read_alloc]
      · have he2 : g.enabled = true := he
        refine ⟨[], by simp [applyRef, he, hm], ?_⟩
        simp [applyRef, he, hm, AnyFilter.apply, GroupFilter.apply, he2]
    | plainKeyword rule =>
      refine ⟨[(AnyFilter.plainKeyword rule).apply (h.read r)], ?_, ?_⟩ <;>
        simp [applyRef, he, Heap.alloc, Heap.read_alloc]
    | wildcardF rule =>
      refine ⟨[(AnyFilter.wildcardF rule).apply (h.read r)], ?_, ?_⟩ <;>
        simp [applyRef, he, Heap.alloc, Heap.read_alloc]
    | regexF rule =>
      refine ⟨[(AnyFilter.regexF rule).apply (h.read r)], ?_, ?_⟩ <;>
        simp [applyRef, he, Heap.alloc, Heap.read_alloc]
    | replaceF rule o p =>
      refine ⟨[(AnyFilter.replaceF rule o p).apply (h.read r)], ?_, ?_⟩ <;>
        simp [applyRef, he, Heap.alloc, Heap.read_alloc]
    | replaceCaptureF rule o p =>
      refine ⟨[(AnyFilter.replaceCaptureF rule o p).apply (h.read r)], ?_, ?_⟩ <;>
        simp [applyRef, he, Heap.alloc, Heap.read_alloc]
  · have he2 : f.is_enabled = false := by simp_all
    refine ⟨[], by simp [applyRef, he2], ?_⟩
    simp [applyRef, he2, apply_disabled f he2]

/-- The heap-level filter loop only extends the heap, and its result reference holds the pure loop result. -/
theorem applyLoopRef_spec (fs : List AnyFilter) (h : Heap) (r : Nat) :
    ∃ ext, (applyLoopRef fs h r).1 = h ++ ext
      ∧ (applyLoopRef fs h r).1.read ((applyLoopRef fs h r).2) = applyLoop fs (h.read r) := by
  induction fs generalizing h r with
  | nil => exact ⟨[], by simp [applyLoopRef], by simp [applyLoopRef, applyLoop]⟩
  | cons f fs ih =>
    by_cases he : f.is_enabled = true
    · obtain ⟨e1, he1, hv1⟩ := applyRef_spec f h r
      by_cases hz : (applyRef f h r).1.read ((applyRef f h r).2) = []
      · have hstep : applyLoopRef (f :: fs) h r = applyRef f h r := by
          simp [applyLoopRef, he, hz]
        have hnil : f.apply (h.read r) = [] := by rw [← hv1]; exact hz
        rw [hstep]
        refine ⟨e1, he1, ?_⟩
        rw [hz]
        simp [applyLoop, he, hnil]
      · have hstep : applyLoopRef (f :: fs) h r
            = applyLoopRef fs (applyRef f h r).1 ((applyRef f h r).2) := by
          simp [applyLoopRef, he, hz]
        rw [hstep]
        obtain ⟨e2, he2, hv2⟩ := ih (applyRef f h r).1 ((applyRef f h r).2)
        refine ⟨e1 ++ e2, ?_, ?_⟩
        · rw [he2, he1, List.append_assoc]
        · rw [hv2, hv1]
          have hnn : f.apply (h.read r) ≠ [] := by rw [← hv1]; exact hz
          simp [applyLoop, he, hnn]
    · have hstep : applyLoopRef (f :: fs) h r = applyLoopRef fs h r := by
        simp [applyLoopRef, he]
      rw [hstep]
      obtain ⟨e2, he2, hv2⟩ := ih h r
      exact ⟨e2, he2, by rw [hv2]; simp [applyLoop, he]⟩

/-- C10.  `filter_tags` never mutates the caller's list: running the
heap-level translation from any heap, every pre-existing cell — in
particular the argument cell — holds exactly the contents it held before
the call, and the returned (possibly fresh) cell holds the pure
`filter_tags` of the input contents. -/
theorem c10_filter_tags_no_input_mutation (e : TagFilterEngine) (h : Heap) (r : Nat) :
    (∀ i, i < h.length → (TagFilterEngine.filter_tags_ref e h r).1.read i = h.read i)
  ∧ (TagFilterEngine.filter_tags_ref e h r).1.read ((TagFilterEngine.filter_tags_ref e h r).2)
      = e.filter_tags (h.read r) := by
  by_cases h0 : h.read r = []
  · have hstep : TagFilterEngine.filter_tags_ref e h r = (h, r) := by
      simp [TagFilterEngine.filter_tags_ref, h0]
    rw [hstep]
    exact ⟨fun i _ => rfl, by simp [TagFilterEngine.filter_tags, h0]⟩
  · have hstep : TagFilterEngine.filter_tags_ref e h r
        = applyLoopRef e.filters (h ++ [h.read r]) h.length := by
      simp [TagFilterEngine.filter_tags_ref, h0, Heap.alloc]
    obtain ⟨ext, hext, hval⟩ := applyLoopRef_spec e.filters (h ++ [h.read r]) h.length
    rw [hstep]
    constructor
    · intro i hi
      rw [hext, List.append_assoc]
      exact Heap.read_append h _ i hi
    · rw [hval, Heap.read_alloc]
      simp [TagFilterEngine.filter_tags, h0]

/-- C10 witness: a one-cell heap; after the call the input cell still
reads `["bad_x", "ok"]` while the result cell reads the filtered list. -/
theorem c10_filter_tags_no_input_mutation_witness :
    ((TagFilterEngine.filter_tags_ref
        (TagFilterEngine.create [.single ⟨"plain_keyword", "bad", 0, none, true, none⟩])
        [["bad_x", "ok"]] 0).1.read 0 = ["bad_x", "ok"])
  ∧ ((TagFilterEngine.filter_tags_ref
        (TagFilterEngine.create [.single ⟨"plain_keyword", "bad", 0, none, true, none⟩])
        [["bad_x", "ok"]] 0).1.read
      ((TagFilterEngine.filter_tags_ref
        (TagFilterEngine.create [.single ⟨"plain_keyword", "bad", 0, none, true, none⟩])
        [["bad_x", "ok"]] 0).2) = ["ok"]) := by
  constructor
  · exact (c10_filter_tags_no_input_mutation (TagFilterEngine.create [.single ⟨"plain_keyword", "bad", 0, none, true, none⟩])
      [["bad_x", "ok"]] 0).1 0 (by decide)
  · have h := (c10_filter_tags_no_input_mutation (TagFilterEngine.create [.single ⟨"plain_keyword", "bad", 0, none, true, none⟩])
      [["bad_x", "ok"]] 0).2
    rw [h]
    decide

end SDTagFilter
